import Mathlib

/-!
Verification of the memadvise pipeline: region discovery from the
process memory map, eligibility filtering, budget-bounded selection and
advisory-syscall invocation.  Pure functions (parsers, budget
computation, selection) are embedded directly; the syscall-performing
functions (`OpenPidfd`, `ProcessMadvise`, `SupportsProcessMadvise`) and
the driver (`Execute`, `run`) are embedded as state-passing functions
over an explicit environment together with an event trace recording
which primitives were invoked.  Machine integers are modelled as
`Nat`/`Int` with explicit reduction modulo `2 ^ 64` where the Go code
uses `uint64`/`int64` arithmetic.
-/

/-- `2 ^ 64`, the modulus of Go's `uint64` arithmetic. -/
def U64 : Nat := 18446744073709551616

/-- `2 ^ 63`, the bound separating the nonnegative from the negative
half of `int64`. -/
def I63 : Nat := 9223372036854775808

/-- Reduce an integer into the `int64` range, the way Go's two's
complement arithmetic wraps on overflow. -/
def wrap64i (x : Int) : Int := (x + (I63 : Int)) % (U64 : Int) - (I63 : Int)

/-- Go's `uint64` subtraction `a - b` (wraparound), for `a b < 2 ^ 64`. -/
def sub64 (a b : Nat) : Nat := (a + (U64 - b % U64)) % U64

/-- Go's conversion `int64(x)` of a `uint64` value `x`: reinterpret the
bit pattern, so values `≥ 2 ^ 63` become negative. -/
def toInt64u (n : Nat) : Int :=
  if n % U64 < I63 then (n % U64 : Int) else (n % U64 : Int) - (U64 : Int)

/-- The white-space test of Go's `strings.Fields` (ASCII space set). -/
def goIsSpace (c : Char) : Bool :=
  c == ' ' || c == '\t' || c == '\n' || c == '\x0b' || c == '\x0c' || c == '\r'

/-- Accumulating loop of `strings.Fields`: `cur` holds the characters
of the field being read, in reverse. -/
def fieldsAux : List Char → List Char → List (List Char)
  | [], cur => if cur.isEmpty then [] else [cur.reverse]
  | c :: cs, cur =>
    if goIsSpace c then
      if cur.isEmpty then fieldsAux cs [] else cur.reverse :: fieldsAux cs []
    else fieldsAux cs (c :: cur)

/-- Go's `strings.Fields`: split around runs of white space, dropping
empty pieces. -/
def goFields (s : String) : List String :=
  (fieldsAux s.toList []).map String.mk

/-- Loop of `strings.Split(s, "-")`: split at every `-`, keeping empty
pieces. -/
def splitDashAux : List Char → List Char → List (List Char)
  | [], cur => [cur.reverse]
  | c :: cs, cur =>
    if c == '-' then cur.reverse :: splitDashAux cs [] else splitDashAux cs (c :: cur)

/-- Go's `strings.Split(s, "-")`, the separator used on address
ranges. -/
def splitOnDash (s : String) : List String :=
  (splitDashAux s.toList []).map String.mk

/-- Go's `strings.HasPrefix`, over the character lists. -/
def listIsPrefixOf : List Char → List Char → Bool
  | [], _ => true
  | _ :: _, [] => false
  | a :: as, b :: bs => a == b && listIsPrefixOf as bs

/-- Go's `strings.HasPrefix p s` on strings. -/
def strHasPref (p s : String) : Bool := listIsPrefixOf p.toList s.toList

/-- Numeric value of one hexadecimal digit, as accepted by Go's
`strconv.ParseUint` with base 16 (a base passed explicitly, so no `0x`
prefix and no underscores are accepted). -/
def hexVal (c : Char) : Option Nat :=
  if '0' ≤ c ∧ c ≤ '9' then some (c.toNat - 48)
  else if 'a' ≤ c ∧ c ≤ 'f' then some (c.toNat - 87)
  else if 'A' ≤ c ∧ c ≤ 'F' then some (c.toNat - 55)
  else none

/-- Digit-accumulation loop of `strconv.ParseUint(s, 16, 64)`: fails on
a non-digit and on overflow past `2 ^ 64 - 1` (Go returns `ErrRange`,
which every caller in this repository treats as failure). -/
def parseHexCore : List Char → Nat → Option Nat
  | [], acc => some acc
  | c :: cs, acc =>
    match hexVal c with
    | none => none
    | some d => if acc * 16 + d < U64 then parseHexCore cs (acc * 16 + d) else none

/-- Go's `strconv.ParseUint(s, 16, 64)` as used on map addresses: the
empty string is a syntax error. -/
def parseUintHex64 (s : String) : Option Nat :=
  match s.toList with
  | [] => none
  | cs => parseHexCore cs 0

/-- Decimal digit-accumulation loop shared by `strconv.ParseInt`. -/
def parseDecCore : List Char → Nat → Option Nat
  | [], acc => some acc
  | c :: cs, acc =>
    if '0' ≤ c ∧ c ≤ '9' then
      if acc * 10 + (c.toNat - 48) < U64 then parseDecCore cs (acc * 10 + (c.toNat - 48)) else none
    else none

/-- Magnitude part of `strconv.ParseInt(s, 10, 64)`: a nonempty digit
string below `2 ^ 64`. -/
def parseDecDigits : List Char → Option Nat
  | [] => none
  | cs => parseDecCore cs 0

/-- Go's `strconv.ParseInt(s, 10, 64)`: optional sign, decimal digits,
range-checked against the `int64` interval (range errors are failures
for every caller here). -/
def parseIntDec64 (s : String) : Option Int :=
  match s.toList with
  | '+' :: cs =>
    match parseDecDigits cs with
    | some n => if n < I63 then some (n : Int) else none
    | none => none
  | '-' :: cs =>
    match parseDecDigits cs with
    | some n => if n ≤ I63 then some (-(n : Int)) else none
    | none => none
  | cs =>
    match parseDecDigits cs with
    | some n => if n < I63 then some (n : Int) else none
    | none => none

/-- Go's `strings.Contains(s, needle)` for the one-character needles
used on permission strings: some character of `s` equals `c`. -/
def containsChar (s : String) (c : Char) : Bool := s.toList.any (fun d => d == c)

/-- The `MemoryRegion` record of the syscall package: one mapping of
the target process.  Addresses and size are `uint64` in the source,
modelled as `Nat` (parsed values are `< 2 ^ 64`). -/
structure MemoryRegion where
  Start : Nat
  End : Nat
  Size : Nat
  Prot : String
  Anonymous : Bool
  Private : Bool
  Writable : Bool
  Executable : Bool
  Path : String
deriving DecidableEq

/-- The `Iovec` record marshalled for the advisory syscall. -/
structure Iovec where
  Base : Nat
  Len : Nat
deriving DecidableEq

/-- `parseMapLine`: parse one line of the per-process memory-region
listing into a `MemoryRegion`, or fail.  Field by field translation of
the Go function: at least five white-space fields; field 0 split on `-`
into exactly two hex addresses; field 1 a permission string of at least
four characters; field 5, when present, the backing path. -/
def parseMapLine (line : String) : Except String MemoryRegion :=
  match goFields line with
  | p0 :: p1 :: _ :: _ :: _ :: rest =>
    match splitOnDash p0 with
    | [a, b] =>
      match parseUintHex64 a with
      | none => .error ("invalid start address: " ++ a)
      | some start =>
        match parseUintHex64 b with
        | none => .error ("invalid end address: " ++ b)
        | some stop =>
          if p1.toList.length < 4 then .error ("invalid permissions format: " ++ p1)
          else
            let path := match rest with
              | p5 :: _ => p5
              | [] => ""
            .ok { Start := start
                  End := stop
                  Size := sub64 stop start
                  Prot := p1
                  Writable := containsChar p1 'w'
                  Executable := containsChar p1 'x'
                  Private := containsChar p1 'p'
                  Anonymous := path == "" || path == "[anon]" || path == "[heap]"
                    || strHasPref "[stack" path
                  Path := path }
    | _ => .error ("invalid address range format: " ++ p0)
  | _ => .error ("invalid maps line format: " ++ line)

/-- `isExcludedRegion`: exclusion policy applied after the
anonymous/private/writable qualification. -/
def isExcludedRegion (region : MemoryRegion) : Bool :=
  if strHasPref "[stack" region.Path then true
  else if region.Path == "[vdso]" || region.Path == "[vvar]" then true
  else if region.Executable then true
  else if region.Size < 4096 then true
  else false

/-- The complete eligibility test of `GetEligibleRegions`: the
anonymous ∧ private ∧ writable qualification and then the exclusion
policy. -/
def eligibleRegion (region : MemoryRegion) : Bool :=
  region.Anonymous && region.Private && region.Writable && !(isExcludedRegion region)

/-- Per-line body of `GetEligibleRegions`: unparsable lines are
skipped, the rest are kept when eligible. -/
def eligibleFromLines (lines : List String) : List MemoryRegion :=
  lines.filterMap (fun l =>
    match parseMapLine l with
    | .error _ => none
    | .ok region => if eligibleRegion region then some region else none)

/-- Whether a maps line carries a well-formed address range: first
white-space field of the form `start-end` with both parts valid 64-bit
hexadecimal numbers. -/
def addrRangeOK (line : String) : Bool :=
  match goFields line with
  | f0 :: _ =>
    match splitOnDash f0 with
    | [a, b] => (parseUintHex64 a).isSome && (parseUintHex64 b).isSome
    | _ => false
  | [] => false

/-- Size of the region produced by `parseMapLine`, when it succeeds. -/
def sizeOfParsed (line : String) : Option Nat :=
  match parseMapLine line with
  | .ok region => some region.Size
  | .error _ => none

deriving instance DecidableEq for Except

/-- The `MemoryStats` record of the inspector package (`int64` fields,
modelled as `Int`). -/
structure MemoryStats where
  TotalRSS : Int
  TotalSwap : Int
  TotalSize : Int
  Shared : Int
  Private : Int
  Anon : Int
  LazyFree : Int
  SwapPSS : Int
  HugetlbRSS : Int
deriving DecidableEq

/-- The zero value `&MemoryStats{}` from which both stats scans start. -/
def zeroStats : MemoryStats :=
  { TotalRSS := 0, TotalSwap := 0, TotalSize := 0, Shared := 0, Private := 0,
    Anon := 0, LazyFree := 0, SwapPSS := 0, HugetlbRSS := 0 }

/-- One iteration of the `GetMemoryStats` scan over the rolled-up usage
summary: split the line into fields, parse field 1 as a decimal
`int64`, convert kilobytes to bytes (`value *= 1024`, wrapping), and
fold into the stats.  The two shared keys accumulate into `Shared` and
the two private keys into `Private`; the remaining keys assign. -/
def processRollupLine (stats : MemoryStats) (line : String) : MemoryStats :=
  match goFields line with
  | key :: v :: _ =>
    match parseIntDec64 v with
    | none => stats
    | some value0 =>
      let value := wrap64i (value0 * 1024)
      if key == "Rss:" then { stats with TotalRSS := value }
      else if key == "Swap:" then { stats with TotalSwap := value }
      else if key == "Size:" then { stats with TotalSize := value }
      else if key == "Shared_Clean:" || key == "Shared_Dirty:" then
        { stats with Shared := wrap64i (stats.Shared + value) }
      else if key == "Private_Clean:" || key == "Private_Dirty:" then
        { stats with Private := wrap64i (stats.Private + value) }
      else if key == "Anonymous:" then { stats with Anon := value }
      else if key == "LazyFree:" then { stats with LazyFree := value }
      else if key == "SwapPss:" then { stats with SwapPSS := value }
      else if key == "HugetlbRss:" then { stats with HugetlbRSS := value }
      else stats
  | _ => stats

/-- `GetMemoryStats` on the lines of the rolled-up summary file,
starting from the zero record. -/
def getMemoryStatsLines (lines : List String) : MemoryStats :=
  lines.foldl processRollupLine zeroStats

/-- One iteration of the fallback `getMemoryStatsFromStatus` scan:
values with a `kB`/`KB` unit field are converted to bytes, the rest are
taken verbatim; only the three `Vm` keys are recorded. -/
def processStatusLine (stats : MemoryStats) (line : String) : MemoryStats :=
  match goFields line with
  | key :: v :: restp =>
    let value? : Option Int :=
      match restp with
      | u :: _ =>
        if u == "kB" || u == "KB" then (parseIntDec64 v).map (fun n => wrap64i (n * 1024))
        else parseIntDec64 v
      | [] => parseIntDec64 v
    match value? with
    | none => stats
    | some value =>
      if key == "VmRSS:" then { stats with TotalRSS := value }
      else if key == "VmSwap:" then { stats with TotalSwap := value }
      else if key == "VmSize:" then { stats with TotalSize := value }
      else stats
  | _ => stats

/-- `calculateBudget` from the entry point: clamp the percentage,
take that share of the resident size (`int64` product and truncating
division), and apply the positive ceiling when it is exceeded. -/
def calculateBudget (totalRSS : Int) (percent : Int) (maxBytes : Int) : Int :=
  let percent := if percent ≤ 0 || 100 < percent then 30 else percent
  let budget := Int.tdiv (wrap64i (totalRSS * percent)) 100
  if 0 < maxBytes && maxBytes < budget then maxBytes else budget

/-- Follows the spec's words, for comparison with `calculateBudget`:
the requested percentage is used when it lies in `(0, 100]` and
defaults to 30 otherwise; the budget is that percentage of the resident
size; a positive ceiling is applied as a hard minimum-of-two. -/
def calculateBudgetSpecModel (totalRSS : Int) (percent : Int) (maxBytes : Int) : Int :=
  let p := if 0 < percent ∧ percent ≤ 100 then percent else 30
  let b := Int.tdiv (wrap64i (totalRSS * p)) 100
  if 0 < maxBytes then min b maxBytes else b

/-- Outcome of a Go call: normal value, returned error, or a runtime
panic (which unwinds the whole program). -/
inductive GoResult (α : Type) where
  | ok (a : α)
  | err (msg : String)
  | panicked (msg : String)
deriving DecidableEq

/-- Observable events of a pipeline run: the syscalls issued by the
syscall package, the capability probe, and the error reports handed to
the output layer. -/
inductive Ev where
  | statProc (pid : Int)
  | pidfdOpenSys (pid : Int)
  | madviseSys (pid : Int) (niov : Nat) (advice : Nat)
  | probe
  | report (msg : String)
deriving DecidableEq

/-- Whether an event is the advisory syscall against a target. -/
def isMadviseEv : Ev → Bool
  | .madviseSys _ _ _ => true
  | _ => false

/-- Whether an event is the `pidfd_open` syscall. -/
def isPidfdEv : Ev → Bool
  | .pidfdOpenSys _ => true
  | _ => false

/-- Whether an event is a consultation of the capability probe. -/
def isProbeEv : Ev → Bool
  | .probe => true
  | _ => false

/-- Whether an event is an error report to the output layer. -/
def isReportEv : Ev → Bool
  | .report _ => true
  | _ => false

/-- Ambient behaviour of the kernel and the proc filesystem during one
run: whether each pid is visible, whether `pidfd_open` succeeds for it,
the advisory syscall's errno and return value, whether the kernel
supports the advisory call (the capability probe's verdict), and the
contents of the three proc files consulted per pid (`none` models a
failed open). -/
structure Env where
  supports : Bool
  pidExists : Int → Bool
  pidfdOK : Int → Bool
  madviseErrno : Int → Nat
  madviseRet : Int → Int
  rollupLines : Int → Option (List String)
  statusLines : Int → Option (List String)
  mapsLines : Int → Option (List String)

/-- Numeric advisory constant for a mode string: `MADV_COLD = 20` for
`cold`, `MADV_PAGEOUT = 21` for `pageout`, nothing otherwise. -/
def adviceValOf (mode : String) : Option Nat :=
  if mode == "cold" then some 20
  else if mode == "pageout" then some 21
  else none

/-- `ProcessMadvise`: open a pidfd for the target (a `stat` of the proc
entry followed by the `pidfd_open` syscall), map the mode string to the
advisory constant, marshal the regions into iovecs, and issue the
advisory syscall.  The address-of-element-0 access `&iovecs[0]` on an
empty iovec slice is the out-of-bounds runtime panic of the source,
modelled by the `panicked` outcome. -/
def ProcessMadvise (env : Env) (pid : Int) (regions : List MemoryRegion) (mode : String) :
    GoResult Int × List Ev :=
  if !(env.pidExists pid) then
    (.err ("process does not exist"), [.statProc pid])
  else if !(env.pidfdOK pid) then
    (.err ("failed to open pidfd"), [.statProc pid, .pidfdOpenSys pid])
  else
    let evs := [.statProc pid, .pidfdOpenSys pid]
    match adviceValOf mode with
    | none => (.err ("invalid mode: " ++ mode), evs)
    | some adviceVal =>
      let iovecs := regions.map (fun r => Iovec.mk r.Start (sub64 r.End r.Start))
      match iovecs with
      | [] => (.panicked "index out of range [0] with length 0", evs)
      | _ :: _ =>
        if env.madviseErrno pid ≠ 0 then
          (.err "process_madvise syscall failed", evs ++ [.madviseSys pid iovecs.length adviceVal])
        else
          (.ok (env.madviseRet pid), evs ++ [.madviseSys pid iovecs.length adviceVal])

/-- Insert a region into a list already sorted by decreasing size. -/
def insertDesc (r : MemoryRegion) : List MemoryRegion → List MemoryRegion
  | [] => [r]
  | x :: xs => if x.Size < r.Size then r :: x :: xs else x :: insertDesc r xs

/-- The size-descending sort of `Execute` (`sort.Slice` with
`Size[i] > Size[j]`; ties keep no specified order). -/
def sortDesc : List MemoryRegion → List MemoryRegion
  | [] => []
  | r :: rs => insertDesc r (sortDesc rs)

/-- Selection loop of `Execute`: before considering each region the
running total (a `uint64`, compared against the budget after an
`int64` conversion) is tested against the budget; once it reaches the
budget the loop breaks, otherwise the region is selected and its size
added.  Returns the regions selected from this point on and the final
running total. -/
def selectLoop (budget : Int) : List MemoryRegion → Nat → List MemoryRegion × Nat
  | [], tot => ([], tot)
  | r :: rs, tot =>
    if budget ≤ toInt64u tot then ([], tot)
    else
      let p := selectLoop budget rs ((tot + r.Size) % U64)
      (r :: p.1, p.2)

/-- `Advisor.Execute`: fail on an empty eligible set, consult the
capability probe, sort the regions by decreasing size, select a prefix
up to the budget, and hand the selection to `ProcessMadvise`. -/
def Execute (env : Env) (pid : Int) (regions : List MemoryRegion) (budget : Int)
    (mode : String) : GoResult Unit × List Ev :=
  if regions.isEmpty then (.err "no eligible memory regions found", [])
  else if !env.supports then
    (.err "process_madvise syscall is not supported on this system", [.probe])
  else
    let sorted := sortDesc regions
    let sel := selectLoop budget sorted 0
    let pm := ProcessMadvise env pid sel.1 mode
    match pm.1 with
    | .ok _ => (.ok (), .probe :: pm.2)
    | .err e => (.err ("failed to apply memory advice: " ++ e), .probe :: pm.2)
    | .panicked p => (.panicked p, .probe :: pm.2)

/-- `GetMemoryStats` against the environment: parse the rolled-up
summary when its file opens, otherwise fall back to the status file. -/
def getMemoryStatsEnv (env : Env) (pid : Int) : Except String MemoryStats :=
  match env.rollupLines pid with
  | some lines => .ok (lines.foldl processRollupLine zeroStats)
  | none =>
    match env.statusLines pid with
    | some lines => .ok (lines.foldl processStatusLine zeroStats)
    | none => .error "failed to open status file"

/-- `GetEligibleRegions` against the environment. -/
def getEligibleRegionsEnv (env : Env) (pid : Int) : Except String (List MemoryRegion) :=
  match env.mapsLines pid with
  | none => .error "failed to open maps file"
  | some lines => .ok (eligibleFromLines lines)

/-- Per-target loop of `run`: per-pid failures are reported and the
remaining targets continue; a Go panic unwinds the whole loop. -/
def runPids (env : Env) (mode : String) (percent : Int) (maxBytes : Int) (dryRun : Bool) :
    List Int → GoResult Unit × List Ev
  | [] => (.ok (), [])
  | pid :: rest =>
    if !(env.pidExists pid) then
      let p := runPids env mode percent maxBytes dryRun rest
      (p.1, .report "PID does not exist or is not accessible" :: p.2)
    else
      match getMemoryStatsEnv env pid with
      | .error _ =>
        let p := runPids env mode percent maxBytes dryRun rest
        (p.1, .report "failed to get memory stats" :: p.2)
      | .ok beforeStats =>
        match getEligibleRegionsEnv env pid with
        | .error _ =>
          let p := runPids env mode percent maxBytes dryRun rest
          (p.1, .report "failed to get memory regions" :: p.2)
        | .ok regions =>
          let budget := calculateBudget beforeStats.TotalRSS percent maxBytes
          if dryRun then runPids env mode percent maxBytes dryRun rest
          else
            match Execute env pid regions budget mode with
            | (.panicked msg, evs) => (.panicked msg, evs)
            | (.err e, evs) =>
              let p := runPids env mode percent maxBytes dryRun rest
              (p.1, evs ++ .report ("failed to execute advice: " ++ e) :: p.2)
            | (.ok _, evs) =>
              match getMemoryStatsEnv env pid with
              | .error _ =>
                let p := runPids env mode percent maxBytes dryRun rest
                (p.1, evs ++ .report "failed to get memory stats" :: p.2)
              | .ok _ =>
                let p := runPids env mode percent maxBytes dryRun rest
                (p.1, evs ++ p.2)

/-- `run`: validate the mode up front, then process every target. -/
def run (env : Env) (pids : List Int) (mode : String) (percent : Int) (maxBytes : Int)
    (dryRun : Bool) : GoResult Unit × List Ev :=
  if mode ≠ "cold" ∧ mode ≠ "pageout" then (.err ("invalid mode: " ++ mode), [])
  else runPids env mode percent maxBytes dryRun pids

/-- Byte contribution of one summary line to the `Shared` field: the
kilobyte value times 1024 when the key is one of the two shared keys
and the value parses, 0 otherwise. -/
def sharedContrib (line : String) : Int :=
  match goFields line with
  | key :: v :: _ =>
    if key == "Shared_Clean:" || key == "Shared_Dirty:" then
      match parseIntDec64 v with
      | some n => n * 1024
      | none => 0
    else 0
  | _ => 0

/-- Byte contribution of one summary line to the `Private` field. -/
def privateContrib (line : String) : Int :=
  match goFields line with
  | key :: v :: _ =>
    if key == "Private_Clean:" || key == "Private_Dirty:" then
      match parseIntDec64 v with
      | some n => n * 1024
      | none => 0
    else 0
  | _ => 0

/-- Sizes of a region list, in order. -/
def sizesOf (regions : List MemoryRegion) : List Nat := regions.map MemoryRegion.Size

/-- An anonymous, private, writable, non-executable region of the given
size with no backing path (the shape produced for a plain `rw-p`
mapping). -/
def regOfSize (n : Nat) : MemoryRegion :=
  { Start := 0, End := n, Size := n, Prot := "rw-p", Anonymous := true, Private := true,
    Writable := true, Executable := false, Path := "" }

/-- A kernel/proc environment where every primitive succeeds and the
advisory call is supported. -/
def envAll : Env :=
  { supports := true
    pidExists := fun _ => true
    pidfdOK := fun _ => true
    madviseErrno := fun _ => 0
    madviseRet := fun _ => 0
    rollupLines := fun _ => some ["Rss: 1000 kB"]
    statusLines := fun _ => none
    mapsLines := fun _ => some ["1000-3000 rw-p 00000000 00:00 0"] }

/-- The same environment on a kernel that lacks the advisory call. -/
def envUnsupported : Env :=
  { envAll with supports := false }

/-- The ceiling test of `calculateBudget` is the positive-guarded minimum of two. -/
theorem budget_cap_min (b m : Int) :
    (if 0 < m && m < b then m else b) = (if 0 < m then min b m else b) := by
  simp only [Bool.and_eq_true, decide_eq_true_eq, min_def]
  split_ifs <;> omega

/-- C8: `calculateBudget` returns totalRSS × percent / 100 (in the `int64`
arithmetic of the source) when 0 < percent ≤ 100, substitutes percent = 30 when
the percentage is out of that range, and caps the result at maxBytes exactly
when maxBytes > 0 and the percentage-derived value exceeds it — stated as
equality with the spec-modelled computation for all inputs, together with the
five concrete evaluations of the claim (100MiB at 30% → 30MiB; ceiling 20MiB
wins; ceiling 40MiB loses; percent −10 and 110 both fall back to 30%). -/
theorem claim_C8 :
    (∀ t p m : Int, calculateBudget t p m = calculateBudgetSpecModel t p m)
    ∧ calculateBudget (100 * 1048576) 30 0 = 30 * 1048576
    ∧ calculateBudget (100 * 1048576) 30 (20 * 1048576) = 20 * 1048576
    ∧ calculateBudget (100 * 1048576) 30 (40 * 1048576) = 30 * 1048576
    ∧ calculateBudget (100 * 1048576) (-10) 0 = 30 * 1048576
    ∧ calculateBudget (100 * 1048576) 110 0 = 30 * 1048576 := by
  refine ⟨fun t p m => ?_, by decide, by decide, by decide, by decide, by decide⟩
  unfold calculateBudget calculateBudgetSpecModel
  have hp : (if (p ≤ 0 || 100 < p : Bool) then (30 : Int) else p)
      = (if 0 < p ∧ p ≤ 100 then p else 30) := by
    simp only [Bool.or_eq_true, decide_eq_true_eq]
    split_ifs <;> omega
  rw [hp, budget_cap_min]

/-- C3: the eligibility filter (anonymous ∧ private ∧ writable qualification
together with the exclusion policy) admits a region exactly when it is
anonymous, private, writable, not executable, at least 4096 bytes, and its
path is neither stack-prefixed nor exactly `[vdso]`/`[vvar]`; in particular it
excludes every executable region, every stack/vdso/vvar path and every region
under 4096 bytes regardless of the other flags. -/
theorem claim_C3 : ∀ r : MemoryRegion,
    eligibleRegion r = true ↔
      (r.Anonymous = true ∧ r.Private = true ∧ r.Writable = true ∧ r.Executable = false ∧
       4096 ≤ r.Size ∧ strHasPref "[stack" r.Path = false ∧
       r.Path ≠ "[vdso]" ∧ r.Path ≠ "[vvar]") := by
  intro r
  unfold eligibleRegion isExcludedRegion
  split_ifs with h1 h2 h3 h4 <;>
    simp_all [Bool.and_eq_true, Bool.not_eq_true', Bool.or_eq_true, beq_iff_eq] <;>
    first
    | omega
    | tauto

/-- C6: for every successfully parsed maps line, the region's anonymous flag
is true iff its path is empty, exactly `[anon]`, exactly `[heap]`, or
stack-prefixed. -/
theorem claim_C6 : ∀ (line : String) (r : MemoryRegion), parseMapLine line = .ok r →
    (r.Anonymous = true ↔
      (r.Path = "" ∨ r.Path = "[anon]" ∨ r.Path = "[heap]" ∨
        strHasPref "[stack" r.Path = true)) := by
  intro line r h
  unfold parseMapLine at h
  repeat' split at h
  all_goals first
    | exact Except.noConfusion h
    | (simp only [Except.ok.injEq] at h
       subst h
       simp only [Bool.or_eq_true, beq_iff_eq]
       tauto)

/-- Witness for C6: the parse hypothesis discharged on a concrete `[heap]`
line. -/
theorem claim_C6_witness :
    parseMapLine "1000-3000 rw-p 00000000 00:00 0 [heap]" = .ok
      { Start := 4096, End := 12288, Size := 8192, Prot := "rw-p", Anonymous := true,
        Private := true, Writable := true, Executable := false, Path := "[heap]" }
    ∧ ((true : Bool) = true ↔
        (("[heap]" : String) = "" ∨ ("[heap]" : String) = "[anon]" ∨
          ("[heap]" : String) = "[heap]" ∨ strHasPref "[stack" "[heap]" = true)) :=
  ⟨by decide, claim_C6 "1000-3000 rw-p 00000000 00:00 0 [heap]"
    { Start := 4096, End := 12288, Size := 8192, Prot := "rw-p", Anonymous := true,
      Private := true, Writable := true, Executable := false, Path := "[heap]" } (by decide)⟩

/-- The hex accumulation loop keeps its result below `2 ^ 64`. -/
theorem parseHexCore_lt : ∀ (cs : List Char) (acc : Nat), acc < U64 →
    ∀ n, parseHexCore cs acc = some n → n < U64 := by
  intro cs
  induction cs with
  | nil =>
    intro acc hacc n h
    simp only [parseHexCore, Option.some.injEq] at h
    omega
  | cons c cs ih =>
    intro acc hacc n h
    unfold parseHexCore at h
    rcases hv : hexVal c with _ | d <;> rw [hv] at h
    · exact absurd h (by simp)
    · simp only at h
      split at h
      · exact ih _ (by assumption) n h
      · exact absurd h (by simp)

/-- A parsed 64-bit hex address is below `2 ^ 64`. -/
theorem parseUintHex64_lt : ∀ (s : String) (n : Nat), parseUintHex64 s = some n → n < U64 := by
  intro s n h
  unfold parseUintHex64 at h
  split at h
  · exact absurd h (by simp)
  · exact parseHexCore_lt _ 0 (by decide) n h

/-- `uint64` subtraction is exact subtraction when no wraparound occurs. -/
theorem sub64_of_le : ∀ a b : Nat, b ≤ a → a < U64 → sub64 a b = a - b := by
  intro a b h1 h2
  simp only [sub64, U64] at *
  omega

/-- A line that parses successfully has a well-formed address range. -/
theorem parse_ok_addrRangeOK : ∀ (line : String) (r : MemoryRegion),
    parseMapLine line = .ok r → addrRangeOK line = true := by
  intro line r h
  unfold parseMapLine at h
  repeat' split at h
  all_goals first
    | exact Except.noConfusion h
    | (unfold addrRangeOK
       simp_all)

/-- C5 (amended): every successfully parsed maps line yields a region whose
size is end − start computed in 64-bit unsigned arithmetic — exactly the
integer difference end − start whenever start ≤ end — with both addresses
below `2 ^ 64`, and a line with a malformed address range never produces a
region; `size > 0` is **not** guaranteed (see the counterexample: a line whose
end equals its start parses with size 0). -/
theorem claim_C5_amended : ∀ line : String,
    (∀ r : MemoryRegion, parseMapLine line = .ok r →
      r.Start < U64 ∧ r.End < U64 ∧ r.Size = sub64 r.End r.Start ∧
        (r.Start ≤ r.End → r.Size = r.End - r.Start))
    ∧ (addrRangeOK line = false → (parseMapLine line).isOk = false) := by
  intro line
  constructor
  · intro r h
    unfold parseMapLine at h
    repeat' split at h
    all_goals first
      | exact Except.noConfusion h
      | (simp only [Except.ok.injEq] at h
         subst h
         refine ⟨parseUintHex64_lt _ _ (by assumption), parseUintHex64_lt _ _ (by assumption),
           rfl, fun hle => sub64_of_le _ _ hle (parseUintHex64_lt _ _ (by assumption))⟩)
  · intro hbad
    cases hok : parseMapLine line with
    | error e => rfl
    | ok r => exact absurd (parse_ok_addrRangeOK line r hok) (by simp [hbad])

/-- Counterexample for C5 as stated: the line `1000-1000 rw-p 00000000 00:00 0`
parses successfully into a region of size 0, refuting `size > 0`. -/
theorem claim_C5_counterexample :
    sizeOfParsed "1000-1000 rw-p 00000000 00:00 0" = some 0
    ∧ (parseMapLine "1000-1000 rw-p 00000000 00:00 0").isOk = true := by
  constructor <;> decide

/-- Witness for C5: both hypotheses discharged on concrete lines. -/
theorem claim_C5_witness :
    ((4096 : Nat) < U64 ∧ (12288 : Nat) < U64 ∧ (8192 : Nat) = sub64 12288 4096 ∧
      ((4096 : Nat) ≤ 12288 → (8192 : Nat) = 12288 - 4096))
    ∧ (parseMapLine "zzz-1 rw-p 00000000 00:00 0").isOk = false :=
  ⟨(claim_C5_amended "1000-3000 rw-p 00000000 00:00 0").1
      { Start := 4096, End := 12288, Size := 8192, Prot := "rw-p", Anonymous := true,
        Private := true, Writable := true, Executable := false, Path := "" } (by decide),
   (claim_C5_amended "zzz-1 rw-p 00000000 00:00 0").2 (by decide)⟩

/-- C10: `ProcessMadvise` called with an empty region list, a valid mode and a
successful pidfd open reaches the address-of-element-0 access on a zero-length
iovec vector — an out-of-bounds runtime panic, not a returned error — before
any advisory syscall is issued, so a non-empty selection is an unstated
precondition of the advisory invoker. -/
theorem claim_C10 : ∀ (env : Env) (pid : Int) (mode : String),
    (mode = "cold" ∨ mode = "pageout") → env.pidExists pid = true → env.pidfdOK pid = true →
    ProcessMadvise env pid [] mode =
      (.panicked "index out of range [0] with length 0", [.statProc pid, .pidfdOpenSys pid]) := by
  intro env pid mode hmode h1 h2
  rcases hmode with rfl | rfl <;> simp [ProcessMadvise, h1, h2, adviceValOf]

/-- Witness for C10: the hypotheses discharged on a concrete environment. -/
theorem claim_C10_witness :
    ProcessMadvise envAll 1 [] "cold" =
      (.panicked "index out of range [0] with length 0", [.statProc 1, .pidfdOpenSys 1]) :=
  claim_C10 envAll 1 "cold" (Or.inl rfl) rfl rfl

/-- C4 (amended): for every mode other than exactly `cold` or `pageout`,
`ProcessMadvise` never issues the advisory syscall and — when the pidfd open
succeeds — fails with the invalid-mode error; however the pidfd-open primitive
(the proc stat and the `pidfd_open` syscall) is invoked **before** the mode is
validated, contrary to the claim as stated. -/
theorem claim_C4_amended : ∀ (env : Env) (pid : Int) (regions : List MemoryRegion) (mode : String),
    mode ≠ "cold" → mode ≠ "pageout" →
    ((ProcessMadvise env pid regions mode).2.any isMadviseEv = false
      ∧ (env.pidExists pid = true → env.pidfdOK pid = true →
          ProcessMadvise env pid regions mode =
            (.err ("invalid mode: " ++ mode), [.statProc pid, .pidfdOpenSys pid]))) := by
  intro env pid regions mode h1 h2
  have hadv : adviceValOf mode = none := by simp [adviceValOf, h1, h2]
  constructor
  · cases he : env.pidExists pid <;> cases ho : env.pidfdOK pid <;>
      simp [ProcessMadvise, he, ho, hadv, isMadviseEv]
  · intro he ho
    simp [ProcessMadvise, he, ho, hadv]

/-- Witness for C4: the hypotheses discharged at mode `hot`. -/
theorem claim_C4_witness :
    (ProcessMadvise envAll 1 [regOfSize 8192] "hot").2.any isMadviseEv = false
    ∧ ProcessMadvise envAll 1 [regOfSize 8192] "hot" =
        (.err "invalid mode: hot", [.statProc 1, .pidfdOpenSys 1]) :=
  ⟨(claim_C4_amended envAll 1 [regOfSize 8192] "hot" (by decide) (by decide)).1,
   (claim_C4_amended envAll 1 [regOfSize 8192] "hot" (by decide) (by decide)).2 rfl rfl⟩

/-- Counterexample for C4 as stated: with the invalid mode `hot` the
`pidfd_open` syscall **is** issued before the invalid-mode failure. -/
theorem claim_C4_counterexample :
    (ProcessMadvise envAll 1 [regOfSize 8192] "hot").1 = .err "invalid mode: hot"
    ∧ (ProcessMadvise envAll 1 [regOfSize 8192] "hot").2.any isPidfdEv = true := by
  constructor <;> decide

/-- C1 (code defect): with one eligible region and budget 0 on a supporting
kernel, `Execute` selects nothing — as the spec requires — but then proceeds
to call `ProcessMadvise` with the empty selection, which opens a pidfd and
panics out of bounds at element 0 of the empty iovec vector, instead of
treating the non-positive budget as an input error and never invoking the
advisory step. -/
theorem claim_C1_bug :
    (selectLoop 0 (sortDesc [regOfSize 8192]) 0).1 = []
    ∧ Execute envAll 1 [regOfSize 8192] 0 "cold" =
        (.panicked "index out of range [0] with length 0",
          [.probe, .statProc 1, .pidfdOpenSys 1]) := by
  constructor <;> decide

/-- Descending insertion produces a permutation. -/
theorem insertDesc_perm : ∀ (r : MemoryRegion) (l : List MemoryRegion),
    (insertDesc r l).Perm (r :: l) := by
  intro r l
  induction l with
  | nil => simp [insertDesc]
  | cons x xs ih =>
    unfold insertDesc
    split
    · exact List.Perm.refl _
    · exact (ih.cons x).trans (List.Perm.swap r x xs)

/-- The size-descending sort permutes its input. -/
theorem sortDesc_perm : ∀ l : List MemoryRegion, (sortDesc l).Perm l := by
  intro l
  induction l with
  | nil => simp [sortDesc]
  | cons r rs ih => exact (insertDesc_perm r (sortDesc rs)).trans (ih.cons r)

/-- Descending insertion preserves the size-descending order. -/
theorem insertDesc_pairwise : ∀ (r : MemoryRegion) (l : List MemoryRegion),
    List.Pairwise (fun a b => b.Size ≤ a.Size) l →
    List.Pairwise (fun a b => b.Size ≤ a.Size) (insertDesc r l) := by
  intro r l
  induction l with
  | nil => intro _; simp [insertDesc]
  | cons x xs ih =>
    intro hp
    rcases List.pairwise_cons.mp hp with ⟨hx, hxs⟩
    unfold insertDesc
    split
    · refine List.pairwise_cons.mpr ⟨?_, hp⟩
      intro b hb
      rcases List.mem_cons.mp hb with rfl | hb
      · omega
      · exact le_trans (hx b hb) (by omega)
    · refine List.pairwise_cons.mpr ⟨?_, ih hxs⟩
      intro b hb
      rcases List.mem_cons.mp ((insertDesc_perm r xs).mem_iff.mp hb) with rfl | hb
      · omega
      · exact hx b hb

/-- The sort's output is pairwise size-descending. -/
theorem sortDesc_pairwise : ∀ l : List MemoryRegion,
    List.Pairwise (fun a b => b.Size ≤ a.Size) (sortDesc l) := by
  intro l
  induction l with
  | nil => simp [sortDesc]
  | cons r rs ih => exact insertDesc_pairwise r _ ih

/-- Below `2 ^ 63` the `int64` reinterpretation of a `uint64` is the identity. -/
theorem toInt64u_small : ∀ n : Nat, n < I63 → toInt64u n = (n : Int) := by
  intro n h
  simp only [toInt64u, I63, U64] at *
  split <;> omega

/-- The selection loop, on totals that stay below `2 ^ 63`, selects exactly
the smallest prefix whose running total reaches the budget, or the whole list
when the budget is never reached. -/
theorem selectLoop_spec : ∀ (l : List MemoryRegion) (tot : Nat) (budget : Int),
    tot + (sizesOf l).sum < I63 →
    ∃ k, k ≤ l.length
      ∧ (selectLoop budget l tot).1 = l.take k
      ∧ (selectLoop budget l tot).2 = tot + ((sizesOf l).take k).sum
      ∧ (∀ j < k, ((tot + ((sizesOf l).take j).sum : Nat) : Int) < budget)
      ∧ (budget ≤ ((tot + ((sizesOf l).take k).sum : Nat) : Int) ∨ k = l.length) := by
  intro l
  induction l with
  | nil =>
    intro tot budget _
    exact ⟨0, by simp, by simp [selectLoop], by simp [selectLoop, sizesOf], by omega,
      Or.inr rfl⟩
  | cons r rs ih =>
    intro tot budget h
    have hsz : sizesOf (r :: rs) = r.Size :: sizesOf rs := by simp [sizesOf]
    have htot : tot < I63 := by
      rw [hsz] at h
      simp only [List.sum_cons] at h
      omega
    by_cases hb : budget ≤ toInt64u tot
    · refine ⟨0, by simp, ?_, ?_, by omega, Or.inl ?_⟩
      · simp [selectLoop, hb]
      · simp [selectLoop, hb]
      · rw [toInt64u_small tot htot] at hb
        simpa using hb
    · have hmod : (tot + r.Size) % U64 = tot + r.Size := by
        apply Nat.mod_eq_of_lt
        rw [hsz] at h
        simp only [List.sum_cons] at h
        simp only [I63, U64] at *
        omega
      have hrec : tot + r.Size + (sizesOf rs).sum < I63 := by
        rw [hsz] at h
        simp only [List.sum_cons] at h
        omega
      rcases ih (tot + r.Size) budget hrec with ⟨k, hk, h1, h2, h3, h4⟩
      refine ⟨k + 1, by simpa using hk, ?_, ?_, ?_, ?_⟩
      · simp only [selectLoop, if_neg hb, hmod, List.take_succ_cons, h1]
      · simp only [selectLoop, if_neg hb, hmod, h2, hsz, List.take_succ_cons, List.sum_cons]
        omega
      · intro j hj
        cases j with
        | zero =>
          simp only [List.take_zero, List.sum_nil, Nat.add_zero]
          rw [toInt64u_small tot htot] at hb
          omega
        | succ j =>
          have := h3 j (by omega)
          simp only [hsz, List.take_succ_cons, List.sum_cons]
          push_cast at this ⊢
          omega
      · rcases h4 with h4 | h4
        · left
          simp only [hsz, List.take_succ_cons, List.sum_cons]
          push_cast at h4 ⊢
          omega
        · right
          simp [h4]

/-- A prefix sum never exceeds the full sum. -/
theorem sum_take_le : ∀ (s : List Nat) (k : Nat), (s.take k).sum ≤ s.sum := by
  intro s k
  conv_rhs => rw [← List.take_append_drop k s]
  rw [List.sum_append]
  omega

/-- C2 (amended): for every eligible region list whose total size stays below
`2 ^ 63` — so that the loop's `int64` view of the running `uint64` total cannot
overflow — and every budget > 0, `Execute`'s selection works on a
size-descending permutation of the regions and selects precisely the smallest
size-descending prefix whose total reaches the budget (the whole set when even
its full total is below the budget), and the selected total never exceeds the
eligible set's total size.  Without the overflow bound the claim as stated is
false (see the counterexample). -/
theorem claim_C2_amended : ∀ (regions : List MemoryRegion) (budget : Int),
    0 < budget → (sizesOf regions).sum < I63 →
    ((sortDesc regions).Perm regions
     ∧ List.Pairwise (fun a b => b.Size ≤ a.Size) (sortDesc regions)
     ∧ (∃ k, k ≤ (sortDesc regions).length
         ∧ (selectLoop budget (sortDesc regions) 0).1 = (sortDesc regions).take k
         ∧ (selectLoop budget (sortDesc regions) 0).2 = ((sizesOf (sortDesc regions)).take k).sum
         ∧ (∀ j < k, ((((sizesOf (sortDesc regions)).take j).sum : Nat) : Int) < budget)
         ∧ (budget ≤ ((((sizesOf (sortDesc regions)).take k).sum : Nat) : Int)
             ∨ k = (sortDesc regions).length))
     ∧ (selectLoop budget (sortDesc regions) 0).2 ≤ (sizesOf regions).sum) := by
  intro regions budget hb hsum
  have hperm := sortDesc_perm regions
  have hmapperm : (sizesOf (sortDesc regions)).Perm (sizesOf regions) :=
    hperm.map MemoryRegion.Size
  have hsum' : (sizesOf (sortDesc regions)).sum = (sizesOf regions).sum := hmapperm.sum_eq
  have h0 : 0 + (sizesOf (sortDesc regions)).sum < I63 := by omega
  rcases selectLoop_spec (sortDesc regions) 0 budget h0 with ⟨k, hk, h1, h2, h3, h4⟩
  refine ⟨hperm, sortDesc_pairwise regions, ⟨k, hk, h1, by simpa using h2, ?_, ?_⟩, ?_⟩
  · intro j hj
    have := h3 j hj
    simpa using this
  · rcases h4 with h4 | h4
    · left
      simpa using h4
    · right
      exact h4
  · rw [h2]
    simp only [Nat.zero_add]
    calc ((sizesOf (sortDesc regions)).take k).sum
        ≤ (sizesOf (sortDesc regions)).sum := sum_take_le _ _
      _ = (sizesOf regions).sum := hsum'

/-- Counterexample for C2 as stated: with sizes `2 ^ 63` and 1 and budget 1,
the smallest size-descending prefix with total ≥ 1 is the first region alone
(total `2 ^ 63`; the empty prefix totals 0 < 1), but the loop's `int64`
comparison sees `2 ^ 63` as negative and keeps selecting, so the selected total
is `2 ^ 63 + 1` ≠ `2 ^ 63`. -/
theorem claim_C2_counterexample :
    (selectLoop 1 (sortDesc [regOfSize I63, regOfSize 1]) 0).2 = I63 + 1
    ∧ sortDesc [regOfSize I63, regOfSize 1] = [regOfSize I63, regOfSize 1]
    ∧ ((sizesOf [regOfSize I63, regOfSize 1]).take 0).sum = 0
    ∧ ((sizesOf [regOfSize I63, regOfSize 1]).take 1).sum = I63
    ∧ (1 : Int) ≤ ((I63 : Nat) : Int)
    ∧ I63 + 1 ≠ I63 := by
  refine ⟨?_, ?_, ?_, ?_, ?_, ?_⟩ <;> decide

/-- Witness for C2: both hypotheses discharged on a concrete two-region list. -/
theorem claim_C2_witness :
    ((sortDesc [regOfSize 8192, regOfSize 12288]).Perm [regOfSize 8192, regOfSize 12288]
     ∧ List.Pairwise (fun a b => b.Size ≤ a.Size) (sortDesc [regOfSize 8192, regOfSize 12288])
     ∧ (∃ k, k ≤ (sortDesc [regOfSize 8192, regOfSize 12288]).length
         ∧ (selectLoop 10000 (sortDesc [regOfSize 8192, regOfSize 12288]) 0).1 =
             (sortDesc [regOfSize 8192, regOfSize 12288]).take k
         ∧ (selectLoop 10000 (sortDesc [regOfSize 8192, regOfSize 12288]) 0).2 =
             ((sizesOf (sortDesc [regOfSize 8192, regOfSize 12288])).take k).sum
         ∧ (∀ j < k,
             ((((sizesOf (sortDesc [regOfSize 8192, regOfSize 12288])).take j).sum : Nat) : Int)
               < 10000)
         ∧ ((10000 : Int) ≤
             ((((sizesOf (sortDesc [regOfSize 8192, regOfSize 12288])).take k).sum : Nat) : Int)
             ∨ k = (sortDesc [regOfSize 8192, regOfSize 12288]).length))
     ∧ (selectLoop 10000 (sortDesc [regOfSize 8192, regOfSize 12288]) 0).2 ≤
         (sizesOf [regOfSize 8192, regOfSize 12288]).sum) :=
  claim_C2_amended [regOfSize 8192, regOfSize 12288] 10000 (by decide) (by decide)

/-- Wrapping the left summand first does not change a wrapped sum. -/
theorem wrap64i_add_left : ∀ a b : Int, wrap64i (wrap64i a + b) = wrap64i (a + b) := by
  intro a b
  simp only [wrap64i, U64, I63]
  omega

/-- Wrapping the right summand first does not change a wrapped sum. -/
theorem wrap64i_add_right : ∀ a b : Int, wrap64i (a + wrap64i b) = wrap64i (a + b) := by
  intro a b
  simp only [wrap64i, U64, I63]
  omega

/-- `int64` wrapping is idempotent. -/
theorem wrap64i_idem : ∀ a : Int, wrap64i (wrap64i a) = wrap64i a := by
  intro a
  simp only [wrap64i, U64, I63]
  omega

/-- One summary line adds its shared/private contribution to the respective
accumulator (wrapped `int64` addition) and never overwrites it. -/
theorem processRollup_step : ∀ (line : String) (stats : MemoryStats),
    wrap64i stats.Shared = stats.Shared → wrap64i stats.Private = stats.Private →
    ((processRollupLine stats line).Shared = wrap64i (stats.Shared + sharedContrib line)
     ∧ (processRollupLine stats line).Private = wrap64i (stats.Private + privateContrib line)) := by
  intro line stats hs hp
  unfold processRollupLine sharedContrib privateContrib
  rcases hf : goFields line with _ | ⟨key, tl⟩
  · simp [hs, hp]
  · rcases tl with _ | ⟨v, rest⟩
    · simp [hs, hp]
    · rcases hv : parseIntDec64 v with _ | n
      · simp [hv, hs, hp]
      · simp only [hv, Bool.or_eq_true, beq_iff_eq]
        split_ifs
        all_goals try casesm* _ ∨ _
        all_goals simp_all [wrap64i_add_right]

/-- Folding the summary lines accumulates the shared and private
contributions of every line. -/
theorem foldRollup_shared_private : ∀ (lines : List String) (stats : MemoryStats),
    wrap64i stats.Shared = stats.Shared → wrap64i stats.Private = stats.Private →
    ((lines.foldl processRollupLine stats).Shared
        = wrap64i (stats.Shared + (lines.map sharedContrib).sum)
     ∧ (lines.foldl processRollupLine stats).Private
        = wrap64i (stats.Private + (lines.map privateContrib).sum)) := by
  intro lines
  induction lines with
  | nil =>
    intro stats hs hp
    constructor <;> simp [hs, hp]
  | cons l ls ih =>
    intro stats hs hp
    rcases processRollup_step l stats hs hp with ⟨h1, h2⟩
    have hs' : wrap64i (processRollupLine stats l).Shared = (processRollupLine stats l).Shared := by
      rw [h1, wrap64i_idem]
    have hp' : wrap64i (processRollupLine stats l).Private
        = (processRollupLine stats l).Private := by
      rw [h2, wrap64i_idem]
    rcases ih (processRollupLine stats l) hs' hp' with ⟨i1, i2⟩
    constructor
    · rw [List.foldl_cons, i1, h1, wrap64i_add_left, List.map_cons, List.sum_cons, add_assoc]
    · rw [List.foldl_cons, i2, h2, wrap64i_add_left, List.map_cons, List.sum_cons, add_assoc]

/-- C7: parsing the rolled-up usage summary sums the kilobyte values of the
two shared keys (`Shared_Clean`, `Shared_Dirty`), converted to bytes, into
`Shared`, and the two private keys into `Private` — accumulated, never
overwritten — for every list of input lines; and the two fields are invariant
under reordering of the lines. -/
theorem claim_C7 : ∀ (lines lines' : List String), lines.Perm lines' →
    ((getMemoryStatsLines lines).Shared = wrap64i ((lines.map sharedContrib).sum)
     ∧ (getMemoryStatsLines lines).Private = wrap64i ((lines.map privateContrib).sum)
     ∧ (getMemoryStatsLines lines').Shared = (getMemoryStatsLines lines).Shared
     ∧ (getMemoryStatsLines lines').Private = (getMemoryStatsLines lines).Private) := by
  intro lines lines' hperm
  have h0 : wrap64i zeroStats.Shared = zeroStats.Shared := by decide
  have h0' : wrap64i zeroStats.Private = zeroStats.Private := by decide
  rcases foldRollup_shared_private lines zeroStats h0 h0' with ⟨h1, h2⟩
  rcases foldRollup_shared_private lines' zeroStats h0 h0' with ⟨h1', h2'⟩
  have hsum : ((lines'.map sharedContrib).sum) = ((lines.map sharedContrib).sum) :=
    (hperm.map sharedContrib).symm.sum_eq
  have hsum' : ((lines'.map privateContrib).sum) = ((lines.map privateContrib).sum) :=
    (hperm.map privateContrib).symm.sum_eq
  refine ⟨?_, ?_, ?_, ?_⟩
  · unfold getMemoryStatsLines
    rw [h1]
    simp [zeroStats]
  · unfold getMemoryStatsLines
    rw [h2]
    simp [zeroStats]
  · unfold getMemoryStatsLines
    rw [h1, h1', hsum]
  · unfold getMemoryStatsLines
    rw [h2, h2', hsum']

/-- Witness for C7: the permutation hypothesis discharged on concrete lines. -/
theorem claim_C7_witness :
    (getMemoryStatsLines ["Shared_Clean: 1 kB", "Private_Dirty: 2 kB"]).Shared
        = wrap64i ((["Shared_Clean: 1 kB", "Private_Dirty: 2 kB"].map sharedContrib).sum)
    ∧ (getMemoryStatsLines ["Shared_Clean: 1 kB", "Private_Dirty: 2 kB"]).Private
        = wrap64i ((["Shared_Clean: 1 kB", "Private_Dirty: 2 kB"].map privateContrib).sum)
    ∧ (getMemoryStatsLines ["Private_Dirty: 2 kB", "Shared_Clean: 1 kB"]).Shared
        = (getMemoryStatsLines ["Shared_Clean: 1 kB", "Private_Dirty: 2 kB"]).Shared
    ∧ (getMemoryStatsLines ["Private_Dirty: 2 kB", "Shared_Clean: 1 kB"]).Private
        = (getMemoryStatsLines ["Shared_Clean: 1 kB", "Private_Dirty: 2 kB"]).Private :=
  claim_C7 ["Shared_Clean: 1 kB", "Private_Dirty: 2 kB"] ["Private_Dirty: 2 kB", "Shared_Clean: 1 kB"]
    (List.Perm.swap "Private_Dirty: 2 kB" "Shared_Clean: 1 kB" [])

/-- On a kernel without the advisory call, `Execute` with a non-empty region
list consults the probe and stops with the unsupported error. -/
theorem execute_unsupported : ∀ (env : Env) (pid : Int) (regions : List MemoryRegion)
    (budget : Int) (mode : String), env.supports = false → regions ≠ [] →
    Execute env pid regions budget mode =
      (.err "process_madvise syscall is not supported on this system", [.probe]) := by
  intro env pid regions budget mode hsup hne
  cases regions with
  | nil => exact absurd rfl hne
  | cons r rs => simp [Execute, hsup]

/-- Per-target loop on an unsupported kernel: one probe consultation and one
error report per target, no advisory syscall, normal completion. -/
theorem runPids_unsupported : ∀ (env : Env) (percent maxBytes : Int) (pids : List Int),
    env.supports = false →
    (∀ pid ∈ pids, env.pidExists pid = true) →
    (∀ pid ∈ pids, (env.rollupLines pid).isSome = true) →
    (∀ pid ∈ pids, ∃ rs, getEligibleRegionsEnv env pid = .ok rs ∧ rs ≠ []) →
    ((runPids env "cold" percent maxBytes false pids).2.countP isProbeEv = pids.length
     ∧ (runPids env "cold" percent maxBytes false pids).2.countP isReportEv = pids.length
     ∧ (runPids env "cold" percent maxBytes false pids).2.any isMadviseEv = false
     ∧ (runPids env "cold" percent maxBytes false pids).1 = .ok ()) := by
  intro env percent maxBytes pids hsup
  induction pids with
  | nil =>
    intro _ _ _
    simp [runPids]
  | cons pid rest ih =>
    intro hex hroll helig
    have hex1 : env.pidExists pid = true := hex pid (by simp)
    have hroll1 := hroll pid (by simp)
    rcases helig pid (by simp) with ⟨rs, helig1, hne⟩
    have hstats : ∃ st, getMemoryStatsEnv env pid = .ok st := by
      unfold getMemoryStatsEnv
      rcases hr : env.rollupLines pid with _ | ls
      · rw [hr] at hroll1
        simp at hroll1
      · exact ⟨_, rfl⟩
    rcases hstats with ⟨st, hstats⟩
    have hexe := execute_unsupported env pid rs
      (calculateBudget st.TotalRSS percent maxBytes) "cold" hsup hne
    rcases ih (fun q hq => hex q (List.mem_cons_of_mem _ hq))
      (fun q hq => hroll q (List.mem_cons_of_mem _ hq))
      (fun q hq => helig q (List.mem_cons_of_mem _ hq)) with ⟨i1, i2, i3, i4⟩
    unfold runPids
    rw [hex1, hstats, helig1]
    simp only [Bool.not_true, Bool.false_eq_true, if_false, Bool.if_false_left]
    rw [hexe]
    simp only [List.countP_cons, List.any_cons, List.cons_append, List.nil_append]
    simp [isProbeEv, isReportEv, isMadviseEv, i1, i2, i3, i4]

/-- C9 (amended): when the capability probe reports the kernel lacks the
advisory call, the probe is consulted once per target — inside `Execute`,
ahead of that target's invocation — and short-circuits each target's pipeline
with one unsupported report per target (so N consultations and N reports for N
targets, not once per run), no advisory syscall is ever issued for any target,
and the run completes normally. -/
theorem claim_C9_amended : ∀ (env : Env) (pids : List Int) (percent maxBytes : Int),
    env.supports = false →
    (∀ pid ∈ pids, env.pidExists pid = true) →
    (∀ pid ∈ pids, (env.rollupLines pid).isSome = true) →
    (∀ pid ∈ pids, ∃ rs, getEligibleRegionsEnv env pid = .ok rs ∧ rs ≠ []) →
    ((run env pids "cold" percent maxBytes false).2.countP isProbeEv = pids.length
     ∧ (run env pids "cold" percent maxBytes false).2.countP isReportEv = pids.length
     ∧ (run env pids "cold" percent maxBytes false).2.any isMadviseEv = false
     ∧ (run env pids "cold" percent maxBytes false).1 = .ok ()) := by
  intro env pids percent maxBytes hsup hex hroll helig
  unfold run
  rw [if_neg (by simp)]
  exact runPids_unsupported env percent maxBytes pids hsup hex hroll helig

/-- Counterexample for C9 as stated: a two-target run on an unsupported
kernel consults the probe twice and reports the failure twice — not once for
the run — though no advisory syscall is issued. -/
theorem claim_C9_counterexample :
    (run envUnsupported [1, 2] "cold" 30 0 false).2.countP isProbeEv = 2
    ∧ ¬((run envUnsupported [1, 2] "cold" 30 0 false).2.countP isProbeEv = 1)
    ∧ (run envUnsupported [1, 2] "cold" 30 0 false).2.countP isReportEv = 2
    ∧ ¬((run envUnsupported [1, 2] "cold" 30 0 false).2.countP isReportEv = 1)
    ∧ (run envUnsupported [1, 2] "cold" 30 0 false).2.any isMadviseEv = false := by
  refine ⟨?_, ?_, ?_, ?_, ?_⟩ <;> decide

/-- Witness for C9: all hypotheses discharged on a concrete two-target run. -/
theorem claim_C9_witness :
    (run envUnsupported [1, 2] "cold" 30 0 false).2.countP isProbeEv = 2
    ∧ (run envUnsupported [1, 2] "cold" 30 0 false).2.countP isReportEv = 2
    ∧ (run envUnsupported [1, 2] "cold" 30 0 false).2.any isMadviseEv = false
    ∧ (run envUnsupported [1, 2] "cold" 30 0 false).1 = .ok () :=
  claim_C9_amended envUnsupported [1, 2] 30 0 rfl (by decide) (by decide)
    (fun pid _ => ⟨eligibleFromLines ["1000-3000 rw-p 00000000 00:00 0"], rfl, by decide⟩)
